import Mathlib

/-!
Shallow embedding of `src/voter/past_rounds.rs` from the
`yeeco/finality-grandpa` repository: the past-round lifecycle manager
(RoundCommitter, BackgroundRound, PastRounds) of a GRANDPA-style
finality gadget.

Modelling conventions:
* block hashes `H` are `Nat`, block numbers `N` are `Nat`
  (`N::zero()` is `0`, comparisons are the usual `Nat` order);
* the opaque payload of a commit message (the precommit set) is a
  `List Nat`;
* the external collaborators (the inner `VotingRound` machine, the
  environment timer, the task waker) are modelled from the spec's
  capability contract, since `voting_round.rs` is not part of this
  subsystem: each poll of a `BackgroundRound` receives the outcome of
  the external events of that poll (`PollInput`);
* the unbounded mpsc commit channel of a round is modelled by the list
  of not-yet-received messages, stored with the receiving half inside
  the `RoundCommitter` (`pending_commits`); the sending half recorded
  by `PastRounds` is modelled by the key set `commit_senders`, a send
  succeeding exactly when the receiving half (the committer of the
  matching live round) still exists.
-/

/-- Errors of the environment (`E::Error`), opaque to this module. -/
structure EnvError where
  code : Nat
deriving DecidableEq, Repr

/-- A commit message: target block identity plus an opaque precommit
payload (`Commit<H, N, S, Id>`). -/
structure CommitMsg where
  target_hash : Nat
  target_number : Nat
  precommits : List Nat
deriving DecidableEq, Repr

/-- Observable state of the inner voting-round machine.
Modelled from the spec: the inner round machine exposes its round
number, an optional estimate `(hash, number)`, an optional finalized
pair `(hash, number)`, and its own best finalizing commit. -/
structure VotingRound where
  round_number : Nat
  estimate : Option (Nat × Nat)
  finalized : Option (Nat × Nat)
  finalizingCommit : Option CommitMsg
deriving DecidableEq, Repr

/-- State of a round's one-shot commit timer (`E::Timer`). -/
inductive TimerState where
  | running
  | fired
deriving DecidableEq, Repr

/-- Outcome of polling the commit timer during one poll (external
event supplied by the environment). -/
inductive TimerPoll where
  | pending
  | fires
  | timerError (e : EnvError)
deriving DecidableEq, Repr

/-- Modelled from the spec: outcome of the inner round's
`check_and_import_from_commit` validation routine (external to this
file), which may error, report no new information (`None`), or import
the commit and mutate the round's observable state. The round number
is immutable. -/
inductive ImportOutcome where
  | importError (e : EnvError)
  | noChange
  | changed (est : Option (Nat × Nat)) (fin : Option (Nat × Nat))
      (fc : Option CommitMsg)
deriving Repr

/-- Modelled from the spec: outcome of polling the inner round machine
(`VotingRound::poll`), which makes opaque internal progress — possibly
updating the observable estimate / finalized / finalizing-commit state
— or fails with a round-internal error. The round number is
immutable. -/
inductive InnerOutcome where
  | fail (e : EnvError)
  | progress (est : Option (Nat × Nat)) (fin : Option (Nat × Nat))
      (fc : Option CommitMsg)
deriving Repr

/-- The per-round commit sub-state-machine (`RoundCommitter`).
`pending_commits` is the queue of the unbounded channel receiver
`import_commits`. -/
structure RoundCommitter where
  commit_timer : TimerState
  pending_commits : List CommitMsg
  last_commit : Option CommitMsg
deriving DecidableEq, Repr

/-- Constructor `RoundCommitter::new`: fresh timer, fresh (empty)
receiver, no cached commit. -/
def RoundCommitter.new (commit_timer : TimerState) : RoundCommitter :=
  { commit_timer := commit_timer
    pending_commits := []
    last_commit := none }

/-- Apply a validated import outcome to the voting round's observable
state (the mutation `check_and_import_from_commit` performs through
`&mut self`). -/
def VotingRound.applyChange (vr : VotingRound) (est : Option (Nat × Nat))
    (fin : Option (Nat × Nat)) (fc : Option CommitMsg) : VotingRound :=
  { vr with estimate := est, finalized := fin, finalizingCommit := fc }

/-- Faithful embedding of `RoundCommitter::import_commit`
(src/voter/past_rounds.rs lines 161-178). `oracle` is the external
validation routine `check_and_import_from_commit`. Returns the
`Result<bool, Error>` together with the updated committer and round. -/
def RoundCommitter.import_commit (oracle : CommitMsg → ImportOutcome)
    (self : RoundCommitter) (voting_round : VotingRound)
    (commit : CommitMsg) :
    Except EnvError (Bool × RoundCommitter × VotingRound) :=
  -- ignore commits for a block lower than we already finalized
  if commit.target_number <
      (match voting_round.finalized with
       | none => 0
       | some p => p.2) then
    .ok (true, self, voting_round)
  else
    match oracle commit with
    | .importError e => .error e
    | .noChange => .ok (false, self, voting_round)
    | .changed est fin fc =>
        .ok (true, { self with last_commit := some commit },
          voting_round.applyChange est fin fc)

/-- Extract the `accepted` boolean from an `import_commit` result. -/
def acceptedOf (r : Except EnvError (Bool × RoundCommitter × VotingRound)) :
    Option Bool :=
  match r with
  | .ok (b, _, _) => some b
  | .error _ => none

/-- Result of one call to `RoundCommitter::commit`
(`Poll<Result<Option<Commit>, Error>>`). -/
inductive CommitStep where
  | pending
  | failed (e : EnvError)
  | ready (c : Option CommitMsg)
deriving DecidableEq, Repr

/-- Drain loop of `RoundCommitter::commit`: receive every queued
commit and feed it to `import_commit`; an import error aborts the
drain (by `?`), leaving the not-yet-received messages queued. The
boolean result of each import is only logged in the source. -/
def drainCommits (oracle : CommitMsg → ImportOutcome) :
    List CommitMsg → RoundCommitter → VotingRound →
    Option EnvError × RoundCommitter × VotingRound
  | [], rc, vr => (none, rc, vr)
  | c :: rest, rc, vr =>
    match rc.import_commit oracle vr c with
    | .error e => (some e, { rc with pending_commits := rest }, vr)
    | .ok (_accepted, rc', vr') => drainCommits oracle rest rc' vr'

/-- Decision taken by `RoundCommitter::commit` once the timer has
fired (the `match (self.last_commit.take(), voting_round.finalized())`
at src/voter/past_rounds.rs lines 191-201). -/
def commitDecision (last : Option CommitMsg) (vr : VotingRound) :
    Option CommitMsg :=
  match last, vr.finalized with
  | none, some _ => vr.finalizingCommit
  | some c, some p =>
      if c.target_number < p.2 then vr.finalizingCommit else none
  | _, _ => none

/-- Faithful embedding of `RoundCommitter::commit`
(src/voter/past_rounds.rs lines 180-203): drain the queued commits,
wait for the one-shot timer (`timerPoll` is the external event of this
poll; a timer that already fired stays fired per the spec's one-shot
contract), then decide. `last_commit.take()` clears the cached commit
in every decision branch. -/
def RoundCommitter.commit (oracle : CommitMsg → ImportOutcome)
    (timerPoll : TimerPoll) (self : RoundCommitter) (vr : VotingRound) :
    CommitStep × RoundCommitter × VotingRound :=
  match drainCommits oracle self.pending_commits
      { self with pending_commits := [] } vr with
  | (some e, rc', vr') => (.failed e, rc', vr')
  | (none, rc', vr') =>
    match rc'.commit_timer with
    | .fired =>
        (.ready (commitDecision rc'.last_commit vr'),
         { rc' with last_commit := none }, vr')
    | .running =>
      match timerPoll with
      | .pending => (.pending, rc', vr')
      | .timerError e => (.failed e, rc', vr')
      | .fires =>
          (.ready (commitDecision rc'.last_commit vr'),
           { rc' with last_commit := none, commit_timer := .fired }, vr')

/-- The backgrounded round (`BackgroundRound`): the inner voting
round, the latest registered waker, the monotonic finalized watermark
and the optional committer. -/
structure BackgroundRound where
  inner : VotingRound
  waker : Option Unit
  finalized_number : Nat
  round_committer : Option RoundCommitter
deriving DecidableEq, Repr

/-- `BackgroundRound::round_number`. -/
def BackgroundRound.round_number (self : BackgroundRound) : Nat :=
  self.inner.round_number

/-- Faithful embedding of `BackgroundRound::is_done`
(src/voter/past_rounds.rs lines 65-74). -/
def BackgroundRound.is_done (self : BackgroundRound) : Bool :=
  self.round_committer.isNone &&
    (match self.inner.estimate with
     | none => true
     | some x => decide (x.2 ≤ self.finalized_number))

/-- Faithful embedding of `BackgroundRound::update_finalized`
(src/voter/past_rounds.rs lines 76-85); waking the stored waker is a
scheduling effect with no further state change. -/
def BackgroundRound.update_finalized (self : BackgroundRound)
    (new_finalized : Nat) : BackgroundRound :=
  { self with
    finalized_number := max self.finalized_number new_finalized }

/-- Output of one poll of a `BackgroundRound`
(`Poll<Result<BackgroundRoundChange, Error>>`). -/
inductive BRPoll where
  | pending
  | pollError (e : EnvError)
  | committed (c : CommitMsg)
  | irrelevant (n : Nat)
deriving DecidableEq, Repr

/-- External events consumed by one poll of a `BackgroundRound`: the
inner machine's progress, the commit-validation routine and the timer
event of this poll. -/
structure PollInput where
  innerStep : VotingRound → InnerOutcome
  oracle : CommitMsg → ImportOutcome
  timerPoll : TimerPoll

/-- Faithful embedding of `<BackgroundRound as Future>::poll`
(src/voter/past_rounds.rs lines 105-128): register the waker, poll the
inner machine (`?` propagates its error), then take the committer and
poll it — note that `take()` together with the early `return` on
`Poll::Ready(Some(commit))` and on an error leaves `round_committer`
empty in both of those cases — and finally check `is_done`. -/
def BackgroundRound.poll (inp : PollInput) (self : BackgroundRound) :
    BRPoll × BackgroundRound :=
  let s0 := { self with waker := some () }
  match inp.innerStep s0.inner with
  | .fail e => (.pollError e, s0)
  | .progress est fin fc =>
    let s1 := { s0 with inner := s0.inner.applyChange est fin fc }
    match s1.round_committer with
    | none =>
        if s1.is_done then (.irrelevant s1.round_number, s1)
        else (.pending, s1)
    | some committer =>
      match committer.commit inp.oracle inp.timerPoll s1.inner with
      | (.failed e, _, vr') =>
          (.pollError e,
           { s1 with inner := vr', round_committer := none })
      | (.ready none, _, vr') =>
          let s2 := { s1 with inner := vr', round_committer := none }
          if s2.is_done then (.irrelevant s2.round_number, s2)
          else (.pending, s2)
      | (.ready (some c), _, vr') =>
          (.committed c,
           { s1 with inner := vr', round_committer := none })
      | (.pending, committer', vr') =>
          let s2 :=
            { s1 with inner := vr', round_committer := some committer' }
          if s2.is_done then (.irrelevant s2.round_number, s2)
          else (.pending, s2)

/-- Poll a `BackgroundRound` repeatedly, one `PollInput` per poll,
collecting the outputs. -/
def BackgroundRound.pollSeq :
    List PollInput → BackgroundRound → List BRPoll × BackgroundRound
  | [], self => ([], self)
  | inp :: rest, self =>
    let st := self.poll inp
    let rec' := BackgroundRound.pollSeq rest st.2
    (st.1 :: rec'.1, rec'.2)

/-- Number of `committed` outputs in a list of poll results. -/
def countCommitted (l : List BRPoll) : Nat :=
  l.countP (fun r => match r with | .committed _ => true | _ => false)

/-- The environment capability used by `PastRounds::push`
(`Environment::round_commit_timer`): constructs a fresh one-shot
timer per round. -/
structure GrandpaEnv where
  round_commit_timer : TimerState

/-- The past-round multiplexer (`PastRounds`): the unordered set of
background-round futures (modelled as a list; the order is the
scheduling order of the model) and the key set of the commit-sender
map (`HashMap<u64, UnboundedSender<..>>`). -/
structure PastRounds where
  past_rounds : List BackgroundRound
  commit_senders : List Nat
deriving DecidableEq, Repr

/-- Constructor `PastRounds::new`. -/
def PastRounds.new : PastRounds :=
  { past_rounds := [], commit_senders := [] }

/-- Faithful embedding of `PastRounds::push`
(src/voter/past_rounds.rs lines 266-281): a fresh `BackgroundRound`
with watermark `N::zero()`, a fresh committer holding the new
channel's (empty) receiving half, and the sending half recorded under
the round's number. -/
def PastRounds.push (self : PastRounds) (env : GrandpaEnv)
    (round : VotingRound) : PastRounds :=
  let round_number := round.round_number
  let background : BackgroundRound :=
    { inner := round
      waker := none
      finalized_number := 0
      round_committer := some (RoundCommitter.new env.round_commit_timer) }
  { past_rounds := self.past_rounds ++ [background]
    commit_senders :=
      if round_number ∈ self.commit_senders then self.commit_senders
      else round_number :: self.commit_senders }

/-- Faithful embedding of `PastRounds::update_finalized`
(src/voter/past_rounds.rs lines 285-291): broadcast the height to
every active background round. -/
def PastRounds.update_finalized (self : PastRounds) (f_num : Nat) :
    PastRounds :=
  { self with
    past_rounds :=
      self.past_rounds.map (fun bg => bg.update_finalized f_num) }

/-- Attempt an `unbounded_send` on round `n`'s commit channel: the
send succeeds exactly when the receiving half — owned by the committer
of the live round numbered `n` — still exists, in which case the
message joins that round's queue. `none` models a structurally failed
send (receiver gone). -/
def sendToRound : List BackgroundRound → Nat → CommitMsg →
    Option (List BackgroundRound)
  | [], _, _ => none
  | bg :: rest, n, c =>
    if bg.round_number = n then
      match bg.round_committer with
      | some rc =>
          let rc' := { rc with pending_commits := rc.pending_commits ++ [c] }
          some ({ bg with round_committer := some rc' } :: rest)
      | none => none
    else
      match sendToRound rest n c with
      | some rest' => some (bg :: rest')
      | none => none

/-- Faithful embedding of `PastRounds::import_commit`
(src/voter/past_rounds.rs lines 295-303): look the round number up in
the sender map; on a hit try the non-blocking send, handing the commit
back exactly when the send fails; on a miss hand the commit back
unchanged. -/
def PastRounds.import_commit (self : PastRounds) (round_number : Nat)
    (commit : CommitMsg) : Option CommitMsg × PastRounds :=
  if round_number ∈ self.commit_senders then
    match sendToRound self.past_rounds round_number commit with
    | some rounds' => (none, { self with past_rounds := rounds' })
    | none => (some commit, self)
  else
    (some commit, self)

/-- Output of one `poll_next` of the `PastRounds` stream
(`Poll<Option<Result<(u64, Commit), Error>>>`). -/
inductive StreamPoll where
  | item (n : Nat) (c : CommitMsg)
  | errorItem (e : EnvError)
  | ended
  | pending
deriving DecidableEq, Repr

/-- Poll events when nothing external happens: the inner machine makes
no observable progress, validation reports no change, the timer stays
pending. Used when the poll schedule supplies no event for a round. -/
def defaultPollInput : PollInput :=
  { innerStep := fun vr => .progress vr.estimate vr.finalized
      vr.finalizingCommit
    oracle := fun _ => .noChange
    timerPoll := .pending }

/-- Loop body of `<PastRounds as Stream>::poll_next`
(src/voter/past_rounds.rs lines 312-339), processing the queue of
background-round futures in scheduling order, one `PollInput` per
polled future (a missing input defaults to a no-event poll):
`Irrelevant(n)` removes the sender entry for `n` and continues the
loop; `Committed` re-enqueues the polled round and yields the pair;
an error yields the error item, dropping the errored future; if every
future was merely pending the stream is pending, and with no futures
at all it is exhausted. -/
def pollNextAux : List PollInput → List BackgroundRound →
    List BackgroundRound → List Nat →
    StreamPoll × List BackgroundRound × List Nat
  | _, acc, [], senders =>
    (if acc.isEmpty then .ended else .pending, acc, senders)
  | inputs, acc, bg :: rest, senders =>
    let inp := inputs.headD defaultPollInput
    let inputs' := inputs.tail
    match bg.poll inp with
    | (.pending, bg') => pollNextAux inputs' (acc ++ [bg']) rest senders
    | (.irrelevant n, _) =>
        pollNextAux inputs' acc rest (senders.filter (fun m => m ≠ n))
    | (.committed c, bg') =>
        (.item bg'.round_number c, acc ++ rest ++ [bg'], senders)
    | (.pollError e, _) => (.errorItem e, acc ++ rest, senders)

/-- Faithful embedding of `<PastRounds as Stream>::poll_next`
(src/voter/past_rounds.rs lines 312-339). -/
def PastRounds.poll_next (inputs : List PollInput) (self : PastRounds) :
    StreamPoll × PastRounds :=
  let r := pollNextAux inputs [] self.past_rounds self.commit_senders
  (r.1, { past_rounds := r.2.1, commit_senders := r.2.2 })

/-! Concrete values used by counterexamples and witnesses. -/

/-- A validation oracle that always reports "no new information". -/
def oracleNoChange : CommitMsg → ImportOutcome := fun _ => ImportOutcome.noChange

/-- An inner-machine step that makes no observable progress. -/
def idleStep : VotingRound → InnerOutcome :=
  fun vr => .progress vr.estimate vr.finalized vr.finalizingCommit

/-- A concrete round-internal error. -/
def e0 : EnvError := { code := 1 }

/-- The finalizing commit of the concrete rounds below. -/
def cFin : CommitMsg := { target_hash := 5, target_number := 5, precommits := [1] }

/-- A commit targeting block 3, below the rounds' finalized number 5. -/
def cLow : CommitMsg := { target_hash := 3, target_number := 3, precommits := [] }

/-- A fresh committer with a still-running timer. -/
def rcFresh : RoundCommitter := RoundCommitter.new TimerState.running

/-- Concrete round 7: estimate at block 9, finalized block 5. -/
def vrSeven : VotingRound :=
  { round_number := 7, estimate := some (9, 9), finalized := some (5, 5),
    finalizingCommit := some cFin }

/-- Concrete round 4: estimate at block 9, finalized block 5. -/
def vrFour : VotingRound :=
  { round_number := 4, estimate := some (9, 9), finalized := some (5, 5),
    finalizingCommit := some cFin }

/-- Round 7 backgrounded with a fresh committer. -/
def bgSeven : BackgroundRound :=
  { inner := vrSeven, waker := none, finalized_number := 0,
    round_committer := some rcFresh }

/-- Round 4 backgrounded with a fresh committer. -/
def bgFour : BackgroundRound :=
  { inner := vrFour, waker := none, finalized_number := 0,
    round_committer := some rcFresh }

/-- Poll events: quiet inner machine, commit timer fires. -/
def inpFires : PollInput :=
  { innerStep := idleStep, oracle := oracleNoChange, timerPoll := .fires }

/-- Poll events: the inner machine fails with `e0`. -/
def inpFail : PollInput :=
  { innerStep := fun _ => .fail e0, oracle := oracleNoChange,
    timerPoll := .pending }

/-- A multiplexer holding backgrounded rounds 7 and 4. -/
def prTwo : PastRounds :=
  { past_rounds := [bgSeven, bgFour], commit_senders := [7, 4] }

/-- A multiplexer holding only backgrounded round 7. -/
def prOne : PastRounds := { past_rounds := [bgSeven], commit_senders := [7] }

/-! Claim C1. -/

/-- C1 counterexample: routing commit `{target_number: 3}` into round
7 whose finalized number is 5 makes `import_commit` return
`Ok(true)` — `accepted = true`, not the claimed `accepted = false` —
though indeed with no error and no state change. -/
theorem c1_counterexample :
    RoundCommitter.import_commit oracleNoChange rcFresh vrSeven cLow =
      .ok (true, rcFresh, vrSeven) ∧
    acceptedOf
        (RoundCommitter.import_commit oracleNoChange rcFresh vrSeven cLow) ≠
      some false := by
  exact ⟨rfl, by decide⟩

/-- C1 (amended): for every commit whose `target_number` is strictly
below the round's own already-finalized number (`N::zero()` when the
round has not finalized), `RoundCommitter::import_commit` returns
`Ok(true)` — accepted with no error — without consulting the round's
validation routine and leaving both the committer's cached
`last_commit` and the round state unchanged. -/
theorem c1_import_commit_below_watermark
    (oracle : CommitMsg → ImportOutcome) (rc : RoundCommitter)
    (vr : VotingRound) (c : CommitMsg)
    (h : c.target_number <
      (match vr.finalized with | none => 0 | some p => p.2)) :
    RoundCommitter.import_commit oracle rc vr c = .ok (true, rc, vr) := by
  unfold RoundCommitter.import_commit
  simp only [if_pos h]

/-- C1 witness: the amended theorem applied to round 7 (finalized
number 5) and the commit targeting block 3. -/
theorem c1_witness :
    RoundCommitter.import_commit oracleNoChange rcFresh vrSeven cLow =
      .ok (true, rcFresh, vrSeven) :=
  c1_import_commit_below_watermark oracleNoChange rcFresh vrSeven cLow
    (by decide)

/-! Claim C4. -/

/-- C4: `BackgroundRound::is_done` returns true exactly when the
committer is gone and the estimate is absent or at or below the
finalized watermark. -/
theorem c4_is_done_iff (self : BackgroundRound) :
    self.is_done = true ↔
      (self.round_committer = none ∧
        (self.inner.estimate = none ∨
          ∃ p, self.inner.estimate = some p ∧
            p.2 ≤ self.finalized_number)) := by
  unfold BackgroundRound.is_done
  cases hrc : self.round_committer <;>
    cases hest : self.inner.estimate <;>
      simp [hrc, hest]

/-! Claim C5. -/

/-- C5: the watermark update stores `max(current, new)`, hence never
decreases, and two successive updates with `b ≤ a` coincide with one
update at `max a b` — both for a single `BackgroundRound` and
broadcast across a whole `PastRounds`. -/
theorem c5_update_finalized_monotone_idem :
    (∀ (self : BackgroundRound) (n : Nat),
      (self.update_finalized n).finalized_number =
        max self.finalized_number n ∧
      self.finalized_number ≤ (self.update_finalized n).finalized_number) ∧
    (∀ (self : BackgroundRound) (a b : Nat), b ≤ a →
      (self.update_finalized a).update_finalized b =
        self.update_finalized (max a b)) ∧
    (∀ (pr : PastRounds) (a b : Nat), b ≤ a →
      (pr.update_finalized a).update_finalized b =
        pr.update_finalized (max a b)) := by
  refine ⟨fun self n => ⟨rfl, Nat.le_max_left _ _⟩, fun self a b _ => ?_,
    fun pr a b _ => ?_⟩
  · simp [BackgroundRound.update_finalized, Nat.max_assoc]
  · simp only [PastRounds.update_finalized, List.map_map]
    have h :
        ((fun bg => bg.update_finalized b) ∘
            fun bg => BackgroundRound.update_finalized bg a) =
          fun bg => bg.update_finalized (max a b) := by
      funext bg
      simp [BackgroundRound.update_finalized, Function.comp, Nat.max_assoc]
    rw [h]

/-- C5 witness: the idempotence parts applied at round 7's background
state and the heights 5 then 3. -/
theorem c5_witness :
    (bgSeven.update_finalized 5).update_finalized 3 =
      bgSeven.update_finalized (max 5 3) ∧
    (prOne.update_finalized 5).update_finalized 3 =
      prOne.update_finalized (max 5 3) :=
  ⟨c5_update_finalized_monotone_idem.2.1 bgSeven 5 3 (by decide),
   c5_update_finalized_monotone_idem.2.2 prOne 5 3 (by decide)⟩

/-! Claim C7. -/

/-- C7: `PastRounds::push` appends a `BackgroundRound` whose watermark
is zero, whose committer is built from the environment's fresh timer
and the fresh channel's empty receiver and clear commit cache, and
records the sender under the round's number. -/
theorem c7_push_initialization (pr : PastRounds) (env : GrandpaEnv)
    (round : VotingRound) :
    (pr.push env round).past_rounds =
      pr.past_rounds ++
        [{ inner := round, waker := none, finalized_number := 0,
           round_committer :=
             some (RoundCommitter.new env.round_commit_timer) }] ∧
    round.round_number ∈ (pr.push env round).commit_senders ∧
    (RoundCommitter.new env.round_commit_timer).pending_commits = [] ∧
    (RoundCommitter.new env.round_commit_timer).last_commit = none := by
  refine ⟨rfl, ?_, rfl, rfl⟩
  unfold PastRounds.push
  dsimp only
  split
  · assumption
  · exact List.mem_cons_self _ _

/-! Claim C6. -/

/-- Round numbers of a list of background rounds. -/
def roundNumbers (l : List BackgroundRound) : List Nat :=
  l.map (fun bg => bg.round_number)

/-- Helper: when round numbers are unique (the driver's contract), a
send to round `n` fails structurally exactly when no round numbered
`n` in the active set still owns its committer (the channel's
receiving half). -/
theorem sendToRound_eq_none_iff (l : List BackgroundRound) (n : Nat)
    (c : CommitMsg) (hnd : (roundNumbers l).Nodup) :
    sendToRound l n c = none ↔
      ∀ bg ∈ l, bg.round_number = n → bg.round_committer = none := by
  induction l with
  | nil => simp [sendToRound]
  | cons bg rest ih =>
    have hnd2 : (bg.round_number :: roundNumbers rest).Nodup := by
      simpa only [roundNumbers, List.map_cons] using hnd
    have h1 : bg.round_number ∉ roundNumbers rest :=
      (List.nodup_cons.mp hnd2).1
    have hnd' : (roundNumbers rest).Nodup := (List.nodup_cons.mp hnd2).2
    unfold sendToRound
    by_cases hn : bg.round_number = n
    · have hrest : ∀ a ∈ rest, a.round_number ≠ n := by
        intro a ha han
        apply h1
        rw [hn, ← han]
        simp only [roundNumbers]
        exact List.mem_map_of_mem _ ha
      cases hrc : bg.round_committer with
      | none =>
        simp only [if_pos hn, hrc]
        constructor
        · intro _ b hb hbn
          rcases List.mem_cons.mp hb with rfl | hb'
          · exact hrc
          · exact absurd hbn (hrest b hb')
        · intro _
          trivial
      | some rc =>
        simp only [if_pos hn, hrc]
        constructor
        · intro h
          simp at h
        · intro h
          have hc := h bg (List.mem_cons_self _ _) hn
          rw [hrc] at hc
          cases hc
    · rw [if_neg hn]
      constructor
      · intro h
        cases hrec : sendToRound rest n c with
        | none =>
          intro b hb hbn
          rcases List.mem_cons.mp hb with rfl | hb'
          · exact absurd hbn hn
          · exact (ih hnd').mp hrec b hb' hbn
        | some rest' =>
          rw [hrec] at h
          cases h
      · intro h
        have hrec : sendToRound rest n c = none :=
          (ih hnd').mpr (fun b hb hbn => h b (List.mem_cons_of_mem _ hb) hbn)
        rw [hrec]

/-- C6: `PastRounds::import_commit` hands the commit back unchanged on
a missing sender entry and on a structurally failed send — a send
failing exactly when no live round numbered `n` still owns its
committer (and with it the channel's receiving half) — and returns
`None` when the send succeeds. -/
theorem c6_import_commit_routing (pr : PastRounds) (n : Nat)
    (c : CommitMsg) :
    (n ∉ pr.commit_senders → pr.import_commit n c = (some c, pr)) ∧
    (n ∈ pr.commit_senders → sendToRound pr.past_rounds n c = none →
      pr.import_commit n c = (some c, pr)) ∧
    (∀ rounds', n ∈ pr.commit_senders →
      sendToRound pr.past_rounds n c = some rounds' →
      pr.import_commit n c = (none, { pr with past_rounds := rounds' })) ∧
    ((roundNumbers pr.past_rounds).Nodup →
      (sendToRound pr.past_rounds n c = none ↔
        ∀ bg ∈ pr.past_rounds, bg.round_number = n →
          bg.round_committer = none)) := by
  refine ⟨fun hmiss => ?_, fun hmem hfail => ?_,
    fun rounds' hmem hok => ?_, sendToRound_eq_none_iff _ n c⟩
  · unfold PastRounds.import_commit
    simp [hmiss]
  · unfold PastRounds.import_commit
    simp [hmem, hfail]
  · unfold PastRounds.import_commit
    simp [hmem, hok]

/-- Round 7's background state after its committer has been dropped:
the channel's receiving half is gone. -/
def bgSevenNoC : BackgroundRound := { bgSeven with round_committer := none }

/-- A multiplexer whose only round kept its sender entry but lost its
committer. -/
def prOneNoC : PastRounds :=
  { past_rounds := [bgSevenNoC], commit_senders := [7] }

/-- Round 7's committer with the low commit queued. -/
def rcWithLow : RoundCommitter := { rcFresh with pending_commits := [cLow] }

/-- Round 7's background state with the low commit queued. -/
def bgSevenQ : BackgroundRound :=
  { bgSeven with round_committer := some rcWithLow }

/-- C6 witness: all three routing cases at concrete states — a miss on
round 9, a structural failure on round 7 after its committer is gone,
and a successful send to live round 7. -/
theorem c6_witness :
    prOne.import_commit 9 cLow = (some cLow, prOne) ∧
    prOneNoC.import_commit 7 cLow = (some cLow, prOneNoC) ∧
    prOne.import_commit 7 cLow =
      (none, { prOne with past_rounds := [bgSevenQ] }) := by
  refine ⟨(c6_import_commit_routing prOne 9 cLow).1 (by decide),
    (c6_import_commit_routing prOneNoC 7 cLow).2.1 (by decide) (by decide),
    ?_⟩
  exact (c6_import_commit_routing prOne 7 cLow).2.2.1 _ (by decide) (by decide)

/-! Poll-level helper lemmas shared by several claims. -/

theorem drainCommits_round_number (oracle : CommitMsg → ImportOutcome)
    (l : List CommitMsg) (rc : RoundCommitter) (vr : VotingRound) :
    (drainCommits oracle l rc vr).2.2.round_number = vr.round_number := by
  induction l generalizing rc vr with
  | nil => rfl
  | cons c rest ih =>
    unfold drainCommits
    cases h : rc.import_commit oracle vr c with
    | error e => rfl
    | ok t =>
      obtain ⟨b, rc', vr'⟩ := t
      have hv : vr'.round_number = vr.round_number := by
        unfold RoundCommitter.import_commit at h
        split at h
        · cases h
          rfl
        · split at h
          · cases h
          · cases h
            rfl
          · cases h
            rfl
      simp only []
      rw [ih rc' vr', hv]

theorem commit_round_number (oracle : CommitMsg → ImportOutcome)
    (tp : TimerPoll) (rc : RoundCommitter) (vr : VotingRound) :
    (RoundCommitter.commit oracle tp rc vr).2.2.round_number =
      vr.round_number := by
  unfold RoundCommitter.commit
  have hd := drainCommits_round_number oracle rc.pending_commits
    { rc with pending_commits := [] } vr
  split
  · rename_i e rc' vr' heq
    rw [heq] at hd
    exact hd
  · rename_i rc' vr' heq
    rw [heq] at hd
    cases rc'.commit_timer with
    | fired => exact hd
    | running =>
      cases tp with
      | pending => exact hd
      | fires => exact hd
      | timerError e => exact hd

theorem poll_round_number (inp : PollInput) (self : BackgroundRound) :
    (self.poll inp).2.round_number = self.round_number := by
  unfold BackgroundRound.poll
  dsimp only
  cases h2 : inp.innerStep self.inner with
  | fail e => rfl
  | progress est fin fc =>
    dsimp only
    cases h1 : self.round_committer with
    | none =>
      dsimp only
      split <;> rfl
    | some committer =>
      dsimp only
      have hc := commit_round_number inp.oracle inp.timerPoll committer
        (self.inner.applyChange est fin fc)
      cases hcm : RoundCommitter.commit inp.oracle inp.timerPoll committer
          (self.inner.applyChange est fin fc) with
      | mk step rest =>
        obtain ⟨rc2, vr2⟩ := rest
        rw [hcm] at hc
        cases step with
        | failed e => exact hc
        | pending =>
          dsimp only
          split <;> exact hc
        | ready copt =>
          cases copt with
          | none =>
            dsimp only
            split <;> exact hc
          | some c => exact hc

theorem poll_committed_committer_none (inp : PollInput)
    (self : BackgroundRound) :
    ∀ c, (self.poll inp).1 = .committed c →
      (self.poll inp).2.round_committer = none := by
  unfold BackgroundRound.poll
  dsimp only
  cases h2 : inp.innerStep self.inner with
  | fail e =>
    intro c h
    simp at h
  | progress est fin fc =>
    dsimp only
    cases h1 : self.round_committer with
    | none =>
      dsimp only
      split <;> (intro c h; simp at h)
    | some committer =>
      dsimp only
      cases hcm : RoundCommitter.commit inp.oracle inp.timerPoll committer
          (self.inner.applyChange est fin fc) with
      | mk step rest =>
        obtain ⟨rc2, vr2⟩ := rest
        cases step with
        | failed e => intro c h; simp at h
        | pending =>
          dsimp only
          split <;> (intro c h; simp at h)
        | ready copt =>
          cases copt with
          | none =>
            dsimp only
            split <;> (intro c h; simp at h)
          | some c' => intro c h; rfl

theorem poll_none_absorbing (inp : PollInput) (self : BackgroundRound)
    (h1 : self.round_committer = none) :
    (self.poll inp).2.round_committer = none := by
  unfold BackgroundRound.poll
  dsimp only
  cases h2 : inp.innerStep self.inner with
  | fail e => exact h1
  | progress est fin fc =>
    dsimp only
    rw [h1]
    dsimp only
    split <;> rfl

theorem poll_none_not_committed (inp : PollInput) (self : BackgroundRound)
    (h1 : self.round_committer = none) :
    ∀ c, (self.poll inp).1 ≠ .committed c := by
  unfold BackgroundRound.poll
  dsimp only
  cases h2 : inp.innerStep self.inner with
  | fail e => intro c h; simp at h
  | progress est fin fc =>
    dsimp only
    rw [h1]
    dsimp only
    split <;> (intro c h; simp at h)

theorem commit_ready_drops_committer (inp : PollInput)
    (self : BackgroundRound) (committer : RoundCommitter)
    (est fin : Option (Nat × Nat)) (fc : Option CommitMsg)
    (opt : Option CommitMsg) (rc' : RoundCommitter) (vr' : VotingRound)
    (h1 : self.round_committer = some committer)
    (h2 : inp.innerStep self.inner = .progress est fin fc)
    (h3 : RoundCommitter.commit inp.oracle inp.timerPoll committer
      (self.inner.applyChange est fin fc) = (.ready opt, rc', vr')) :
    (self.poll inp).2.round_committer = none := by
  unfold BackgroundRound.poll
  dsimp only
  rw [h2]
  dsimp only
  rw [h1]
  dsimp only
  rw [h3]
  cases opt with
  | none =>
    dsimp only
    split <;> rfl
  | some c => rfl

theorem pollSeq_none_count (inputs : List PollInput)
    (self : BackgroundRound) (h : self.round_committer = none) :
    countCommitted (BackgroundRound.pollSeq inputs self).1 = 0 := by
  induction inputs generalizing self with
  | nil => rfl
  | cons inp rest ih =>
    unfold BackgroundRound.pollSeq
    dsimp only
    simp only [countCommitted, List.countP_cons]
    have ih' := ih _ (poll_none_absorbing inp self h)
    simp only [countCommitted] at ih'
    cases hout : (self.poll inp).1 with
    | committed c => exact absurd hout (poll_none_not_committed inp self h c)
    | pending => simpa using ih'
    | pollError e => simpa using ih'
    | irrelevant n => simpa using ih'

theorem pollSeq_count_le_one (inputs : List PollInput)
    (self : BackgroundRound) :
    countCommitted (BackgroundRound.pollSeq inputs self).1 ≤ 1 := by
  induction inputs generalizing self with
  | nil => exact Nat.zero_le 1
  | cons inp rest ih =>
    unfold BackgroundRound.pollSeq
    dsimp only
    simp only [countCommitted, List.countP_cons]
    cases hout : (self.poll inp).1 with
    | committed c =>
      have hnone := poll_committed_committer_none inp self c hout
      have h0 := pollSeq_none_count rest _ hnone
      simp only [countCommitted] at h0
      simp [h0]
    | pending =>
      have ih' := ih ((self.poll inp).2)
      simp only [countCommitted] at ih'
      simpa using ih'
    | pollError e =>
      have ih' := ih ((self.poll inp).2)
      simp only [countCommitted] at ih'
      simpa using ih'
    | irrelevant n =>
      have ih' := ih ((self.poll inp).2)
      simp only [countCommitted] at ih'
      simpa using ih'

/-! Claim C2. -/

/-- C2 counterexample: polling backgrounded round 7 with a firing
timer yields `Committed` — and the returned round's `round_committer`
is `none`, not `Some` as claimed: `take()` removed it and the early
`return` skipped the write-back. -/
theorem c2_counterexample :
    (bgSeven.poll inpFires).1 = .committed cFin ∧
    (bgSeven.poll inpFires).2.round_committer = none :=
  ⟨rfl, rfl⟩

/-- C2 (amended): whenever a poll of a `BackgroundRound` yields a
`Committed` output, the `round_committer` field of the returned round
is `none` — the committer is dropped on every `Ready` result of its
`commit` call, with or without a commit; the round itself is still
re-polled afterwards but can emit no further commit. -/
theorem c2_committed_drops_committer (inp : PollInput)
    (self : BackgroundRound) (c : CommitMsg)
    (h : (self.poll inp).1 = .committed c) :
    (self.poll inp).2.round_committer = none :=
  poll_committed_committer_none inp self c h

/-- C2 witness: the amended theorem at round 7's committing poll. -/
theorem c2_witness : (bgSeven.poll inpFires).2.round_committer = none :=
  c2_committed_drops_committer inpFires bgSeven cFin rfl

/-! Claim C10. -/

/-- C10: once `round_committer` is `none` it stays `none` through
every later poll, `update_finalized` never touches it, any `Ready`
result of the committer's `commit` call — with or without a commit —
leaves the committer absent, and consequently a `BackgroundRound`
yields at most one `Committed` output over any poll sequence. -/
theorem c10_committer_absorbing :
    (∀ (inp : PollInput) (self : BackgroundRound),
      self.round_committer = none →
      (self.poll inp).2.round_committer = none) ∧
    (∀ (self : BackgroundRound) (n : Nat),
      (self.update_finalized n).round_committer = self.round_committer) ∧
    (∀ (inp : PollInput) (self : BackgroundRound)
      (committer rc' : RoundCommitter) (est fin : Option (Nat × Nat))
      (fc opt : Option CommitMsg) (vr' : VotingRound),
      self.round_committer = some committer →
      inp.innerStep self.inner = .progress est fin fc →
      RoundCommitter.commit inp.oracle inp.timerPoll committer
        (self.inner.applyChange est fin fc) = (.ready opt, rc', vr') →
      (self.poll inp).2.round_committer = none) ∧
    (∀ (inputs : List PollInput) (self : BackgroundRound),
      countCommitted (BackgroundRound.pollSeq inputs self).1 ≤ 1) :=
  ⟨fun inp self h => poll_none_absorbing inp self h,
   fun _ _ => rfl,
   fun inp self committer rc' est fin fc opt vr' h1 h2 h3 =>
     commit_ready_drops_committer inp self committer est fin fc opt
       rc' vr' h1 h2 h3,
   fun inputs self => pollSeq_count_le_one inputs self⟩

/-- C10 witness: absorption applied to round 7 with its committer
already gone, and the at-most-one-commit bound on a two-poll run of
round 7. -/
theorem c10_witness :
    (bgSevenNoC.poll inpFires).2.round_committer = none ∧
    countCommitted
        (BackgroundRound.pollSeq [inpFires, inpFires] bgSeven).1 ≤ 1 :=
  ⟨c10_committer_absorbing.1 inpFires bgSevenNoC rfl,
   c10_committer_absorbing.2.2.2 [inpFires, inpFires] bgSeven⟩

/-! Claim C3. -/

theorem commit_fired_eq (oracle : CommitMsg → ImportOutcome)
    (tp : TimerPoll) (rc : RoundCommitter) (vr : VotingRound)
    (hq : rc.pending_commits = [])
    (ht : rc.commit_timer = .fired ∨ tp = .fires) :
    (RoundCommitter.commit oracle tp rc vr).1 =
      .ready (commitDecision rc.last_commit vr) := by
  obtain ⟨tm, pend, last⟩ := rc
  dsimp only at hq
  subst hq
  unfold RoundCommitter.commit
  simp only [drainCommits]
  rcases ht with h | h
  · dsimp only at h
    subst h
    rfl
  · subst h
    dsimp only
    cases tm with
    | fired => rfl
    | running => rfl

theorem commitDecision_spec (last : Option CommitMsg) (vr : VotingRound) :
    (((last = none ∧ ∃ p, vr.finalized = some p) ∨
        (∃ c p, last = some c ∧ vr.finalized = some p ∧
          c.target_number < p.2)) →
      commitDecision last vr = vr.finalizingCommit) ∧
    (¬ ((last = none ∧ ∃ p, vr.finalized = some p) ∨
        (∃ c p, last = some c ∧ vr.finalized = some p ∧
          c.target_number < p.2)) →
      commitDecision last vr = none) := by
  unfold commitDecision
  cases last with
  | none =>
    cases hf : vr.finalized with
    | none => simp [hf]
    | some p => simp [hf]
  | some c =>
    cases hf : vr.finalized with
    | none => simp [hf]
    | some p =>
      by_cases hlt : c.target_number < p.2
      · simp [hf, hlt]
      · simp [hf, hlt]

/-- C3: once `RoundCommitter::commit` proceeds past the fired timer
(nothing queued to drain), it returns the round's own finalizing
commit exactly when no external commit is cached and the round has a
finalized block, or the cached external commit targets a block
strictly below the round's finalized number; in every other case it
returns no commit. -/
theorem c3_commit_decision (oracle : CommitMsg → ImportOutcome)
    (tp : TimerPoll) (rc : RoundCommitter) (vr : VotingRound)
    (hq : rc.pending_commits = [])
    (ht : rc.commit_timer = .fired ∨ tp = .fires) :
    (((rc.last_commit = none ∧ ∃ p, vr.finalized = some p) ∨
        (∃ c p, rc.last_commit = some c ∧ vr.finalized = some p ∧
          c.target_number < p.2)) →
      (RoundCommitter.commit oracle tp rc vr).1 =
        .ready vr.finalizingCommit) ∧
    (¬ ((rc.last_commit = none ∧ ∃ p, vr.finalized = some p) ∨
        (∃ c p, rc.last_commit = some c ∧ vr.finalized = some p ∧
          c.target_number < p.2)) →
      (RoundCommitter.commit oracle tp rc vr).1 = .ready none) := by
  have he := commit_fired_eq oracle tp rc vr hq ht
  refine ⟨fun hc => ?_, fun hc => ?_⟩
  · rw [he, (commitDecision_spec rc.last_commit vr).1 hc]
  · rw [he, (commitDecision_spec rc.last_commit vr).2 hc]

/-- C3 witness: round 7 (finalized block 5, no cached external
commit) emits its own finalizing commit when its timer fires. -/
theorem c3_witness :
    (RoundCommitter.commit oracleNoChange .fires rcFresh vrSeven).1 =
      .ready vrSeven.finalizingCommit :=
  (c3_commit_decision oracleNoChange .fires rcFresh vrSeven rfl
      (Or.inr rfl)).1 (Or.inl ⟨rfl, ⟨(5, 5), rfl⟩⟩)

/-! Claim C8. -/

theorem poll_inner_fail (inp : PollInput) (self : BackgroundRound)
    (e : EnvError) (h : inp.innerStep self.inner = .fail e) :
    self.poll inp = (.pollError e, { self with waker := some () }) := by
  unfold BackgroundRound.poll
  dsimp only
  rw [h]

/-- C8 counterexample: with rounds 7 and 4 backgrounded, round 7's
inner error is surfaced as an error item, yet a subsequent poll of the
stream still yields round 4's commit — the stream does not stop after
surfacing the error. -/
theorem c8_counterexample :
    (prTwo.poll_next [inpFail]).1 = .errorItem e0 ∧
    ((prTwo.poll_next [inpFail]).2.poll_next [inpFires]).1 =
      .item 4 cFin :=
  ⟨rfl, rfl⟩

/-- New helper: a queued commit at or above the round's finalized
watermark whose validation errors makes the drain loop of
`RoundCommitter::commit` propagate that error (`?` at line 184). -/
theorem commit_drain_import_error (oracle : CommitMsg → ImportOutcome)
    (tp : TimerPoll) (rc : RoundCommitter) (vr : VotingRound)
    (c : CommitMsg) (queueRest : List CommitMsg) (e : EnvError)
    (hq : rc.pending_commits = c :: queueRest)
    (hge : ¬ c.target_number <
      (match vr.finalized with | none => 0 | some p => p.2))
    (he : oracle c = .importError e) :
    (RoundCommitter.commit oracle tp rc vr).1 = .failed e := by
  unfold RoundCommitter.commit
  rw [hq]
  unfold drainCommits RoundCommitter.import_commit
  rw [if_neg hge, he]

/-- A failed result of the committer's `commit` call propagates out of
the round's poll as an error (`?` at line 112), with the committer —
already taken — left absent. -/
theorem poll_commit_failed (inp : PollInput) (bg : BackgroundRound)
    (committer : RoundCommitter) (est fin : Option (Nat × Nat))
    (fc : Option CommitMsg) (e : EnvError)
    (h1 : bg.round_committer = some committer)
    (h2 : inp.innerStep bg.inner = .progress est fin fc)
    (h3 : (RoundCommitter.commit inp.oracle inp.timerPoll committer
      (bg.inner.applyChange est fin fc)).1 = .failed e) :
    (bg.poll inp).1 = .pollError e ∧
    (bg.poll inp).2.round_committer = none := by
  unfold BackgroundRound.poll
  dsimp only
  rw [h2]
  dsimp only
  rw [h1]
  dsimp only
  cases hcm : RoundCommitter.commit inp.oracle inp.timerPoll committer
      (bg.inner.applyChange est fin fc) with
  | mk step rest2 =>
    obtain ⟨rc2, vr2⟩ := rest2
    rw [hcm] at h3
    dsimp only at h3
    subst h3
    exact ⟨rfl, rfl⟩

/-- C8 (amended): a round-internal error propagates out of the
affected round's poll as `pollError` — both when the inner machine
fails while being advanced and when validating an imported (queued)
commit errors during the committer's drain, the latter also dropping
the committer — and any such poll error is surfaced as an error item
by the combined stream, whose poll drops that round's future (but not
its sender entry); the stream itself does not stop — later polls may
keep yielding output from the remaining rounds, and stopping on the
error item is left to the consumer. -/
theorem c8_error_propagation :
    (∀ (inp : PollInput) (bg : BackgroundRound) (e : EnvError),
      inp.innerStep bg.inner = .fail e →
      (bg.poll inp).1 = .pollError e) ∧
    (∀ (inp : PollInput) (bg : BackgroundRound)
      (committer : RoundCommitter) (est fin : Option (Nat × Nat))
      (fc : Option CommitMsg) (c : CommitMsg)
      (queueRest : List CommitMsg) (e : EnvError),
      bg.round_committer = some committer →
      inp.innerStep bg.inner = .progress est fin fc →
      committer.pending_commits = c :: queueRest →
      ¬ c.target_number < (match fin with | none => 0 | some p => p.2) →
      inp.oracle c = .importError e →
      (bg.poll inp).1 = .pollError e ∧
      (bg.poll inp).2.round_committer = none) ∧
    (∀ (pr : PastRounds) (bg bg' : BackgroundRound)
      (rest : List BackgroundRound) (inp : PollInput)
      (more : List PollInput) (e : EnvError),
      pr.past_rounds = bg :: rest →
      bg.poll inp = (.pollError e, bg') →
      pr.poll_next (inp :: more) =
        (.errorItem e,
          { past_rounds := rest,
            commit_senders := pr.commit_senders })) := by
  refine ⟨fun inp bg e hfail => ?_, ?_, ?_⟩
  · rw [poll_inner_fail inp bg e hfail]
  · intro inp bg committer est fin fc c queueRest e h1 h2 hq hge he
    refine poll_commit_failed inp bg committer est fin fc e h1 h2 ?_
    exact commit_drain_import_error inp.oracle inp.timerPoll committer
      (bg.inner.applyChange est fin fc) c queueRest e hq hge he
  · intro pr bg bg' rest inp more e hpast hbg
    unfold PastRounds.poll_next
    rw [hpast]
    unfold pollNextAux
    simp only [List.headD_cons, List.tail_cons]
    rw [hbg]
    simp

/-- A commit targeting block 9, at or above the rounds' finalized
number 5, so it reaches the validation routine when drained. -/
def cHigh : CommitMsg := { target_hash := 9, target_number := 9, precommits := [] }

/-- A validation oracle that rejects every commit with error `e0`. -/
def oracleFailing : CommitMsg → ImportOutcome :=
  fun _ => ImportOutcome.importError e0

/-- Round 7's committer with the high commit queued for validation. -/
def rcQueued : RoundCommitter := { rcFresh with pending_commits := [cHigh] }

/-- Round 7 backgrounded with the high commit queued. -/
def bgSevenBad : BackgroundRound :=
  { bgSeven with round_committer := some rcQueued }

/-- Poll events: quiet inner machine, failing validation routine,
timer still pending. -/
def inpBadImport : PollInput :=
  { innerStep := idleStep, oracle := oracleFailing, timerPoll := .pending }

/-- C8 witness: all three parts at concrete states — round 7's inner
failure, round 7's drain hitting a failing validation of the queued
commit 9 (dropping the committer), and the two-round multiplexer
surfacing the error item while keeping round 4. -/
theorem c8_witness :
    (bgSeven.poll inpFail).1 = .pollError e0 ∧
    ((bgSevenBad.poll inpBadImport).1 = .pollError e0 ∧
      (bgSevenBad.poll inpBadImport).2.round_committer = none) ∧
    prTwo.poll_next [inpFail] =
      (.errorItem e0,
        { past_rounds := [bgFour],
          commit_senders := prTwo.commit_senders }) :=
  ⟨c8_error_propagation.1 inpFail bgSeven e0 rfl,
   c8_error_propagation.2.1 inpBadImport bgSevenBad rcQueued
     (some (9, 9)) (some (5, 5)) (some cFin) cHigh [] e0 rfl rfl rfl
     (by decide) rfl,
   c8_error_propagation.2.2 prTwo bgSeven
     { bgSeven with waker := some () } [bgFour] inpFail [] e0 rfl rfl⟩

/-! Claim C9. -/

theorem roundNumbers_append (a b : List BackgroundRound) :
    roundNumbers (a ++ b) = roundNumbers a ++ roundNumbers b :=
  List.map_append _ _ _

theorem roundNumbers_cons (bg : BackgroundRound) (l : List BackgroundRound) :
    roundNumbers (bg :: l) = bg.round_number :: roundNumbers l := rfl

theorem poll_irrelevant_number (inp : PollInput) (self : BackgroundRound) :
    ∀ n, (self.poll inp).1 = .irrelevant n → n = self.round_number := by
  intro n h
  have key : n = (self.poll inp).2.round_number := by
    revert h
    unfold BackgroundRound.poll
    dsimp only
    cases h2 : inp.innerStep self.inner with
    | fail e => intro h; simp at h
    | progress est fin fc =>
      dsimp only
      cases h1 : self.round_committer with
      | none =>
        dsimp only
        split
        · intro h
          injection h with h'
          rw [← h']
        · intro h
          simp at h
      | some committer =>
        dsimp only
        cases hcm : RoundCommitter.commit inp.oracle inp.timerPoll committer
            (self.inner.applyChange est fin fc) with
        | mk step rest2 =>
          obtain ⟨rc2, vr2⟩ := rest2
          cases step with
          | failed e => intro h; simp at h
          | pending =>
            dsimp only
            split
            · intro h
              injection h with h'
              rw [← h']
            · intro h
              simp at h
          | ready copt =>
            cases copt with
            | none =>
              dsimp only
              split
              · intro h
                injection h with h'
                rw [← h']
              · intro h
                simp at h
            | some c => intro h; simp at h
  rw [key, poll_round_number]

/-- A successful send leaves the round numbers of the active set
unchanged. -/
theorem sendToRound_roundNumbers (l : List BackgroundRound) (n : Nat)
    (c : CommitMsg) (l' : List BackgroundRound)
    (h : sendToRound l n c = some l') :
    roundNumbers l' = roundNumbers l := by
  induction l generalizing l' with
  | nil => cases h
  | cons bg rest ih =>
    unfold sendToRound at h
    by_cases hn : bg.round_number = n
    · rw [if_pos hn] at h
      cases hrc : bg.round_committer with
      | none => rw [hrc] at h; cases h
      | some rc =>
        rw [hrc] at h
        dsimp only at h
        injection h with h'
        rw [← h']
        rfl
    · rw [if_neg hn] at h
      cases hrec : sendToRound rest n c with
      | none => rw [hrec] at h; cases h
      | some rest' =>
        rw [hrec] at h
        injection h with h'
        rw [← h']
        rw [roundNumbers_cons, roundNumbers_cons, ih rest' hrec]

/-- The registry invariant of the multiplexer: unique sender keys,
unique round numbers, and a sender entry exactly for each live
background round. -/
def PastRounds.Inv (self : PastRounds) : Prop :=
  self.commit_senders.Nodup ∧ (roundNumbers self.past_rounds).Nodup ∧
    ∀ n, n ∈ self.commit_senders ↔ n ∈ roundNumbers self.past_rounds

theorem pollNextAux_inv (queue : List BackgroundRound) :
    ∀ (inputs : List PollInput) (acc : List BackgroundRound)
      (senders : List Nat) (out : StreamPoll)
      (rounds' : List BackgroundRound) (senders' : List Nat),
    pollNextAux inputs acc queue senders = (out, rounds', senders') →
    senders.Nodup → (roundNumbers (acc ++ queue)).Nodup →
    (∀ n, n ∈ senders ↔ n ∈ roundNumbers (acc ++ queue)) →
    (∀ e, out ≠ .errorItem e) →
    senders'.Nodup ∧ (roundNumbers rounds').Nodup ∧
      (∀ n, n ∈ senders' ↔ n ∈ roundNumbers rounds') := by
  induction queue with
  | nil =>
    intro inputs acc senders out rounds' senders' hres h1 h2 h3 _
    unfold pollNextAux at hres
    simp only [Prod.mk.injEq] at hres
    obtain ⟨-, hb, hc⟩ := hres
    subst hb
    subst hc
    simp only [List.append_nil] at h2 h3
    exact ⟨h1, h2, h3⟩
  | cons bg rest ih =>
    intro inputs acc senders out rounds' senders' hres h1 h2 h3 herr
    unfold pollNextAux at hres
    dsimp only at hres
    cases hbg : bg.poll (inputs.headD defaultPollInput) with
    | mk bout st =>
      rw [hbg] at hres
      have hst : st.round_number = bg.round_number := by
        have hn := poll_round_number (inputs.headD defaultPollInput) bg
        rw [hbg] at hn
        exact hn
      cases bout with
      | pending =>
        dsimp only at hres
        have hlist : roundNumbers ((acc ++ [st]) ++ rest) =
            roundNumbers (acc ++ bg :: rest) := by
          simp [roundNumbers, hst]
        refine ih inputs.tail (acc ++ [st]) senders out rounds' senders'
          hres h1 ?_ ?_ herr
        · rw [hlist]
          exact h2
        · intro n
          rw [hlist]
          exact h3 n
      | irrelevant n =>
        dsimp only at hres
        have hn : n = bg.round_number := by
          have hirr := poll_irrelevant_number
            (inputs.headD defaultPollInput) bg n
          rw [hbg] at hirr
          exact hirr rfl
        subst hn
        rw [roundNumbers_append, roundNumbers_cons] at h2 h3
        have hmid := List.nodup_middle.mp h2
        have hnotin : bg.round_number ∉
            roundNumbers acc ++ roundNumbers rest :=
          (List.nodup_cons.mp hmid).1
        have hrest_nodup : (roundNumbers acc ++ roundNumbers rest).Nodup :=
          (List.nodup_cons.mp hmid).2
        refine ih inputs.tail acc
          (senders.filter (fun m => m ≠ bg.round_number)) out rounds'
          senders' hres (List.Nodup.filter _ h1) ?_ ?_ herr
        · rw [roundNumbers_append]
          exact hrest_nodup
        · intro m
          rw [roundNumbers_append]
          constructor
          · intro hm
            have hm' := List.mem_filter.mp hm
            have hms := (h3 m).mp hm'.1
            have hme : m ≠ bg.round_number := by
              simpa using hm'.2
            rcases List.mem_append.mp hms with ha | hc
            · exact List.mem_append.mpr (Or.inl ha)
            · rcases List.mem_cons.mp hc with rfl | hc'
              · exact absurd rfl hme
              · exact List.mem_append.mpr (Or.inr hc')
          · intro hm
            have hme : m ≠ bg.round_number := by
              intro heq
              subst heq
              exact hnotin hm
            refine List.mem_filter.mpr ⟨(h3 m).mpr ?_, by simpa using hme⟩
            rcases List.mem_append.mp hm with ha | hc
            · exact List.mem_append.mpr (Or.inl ha)
            · exact List.mem_append.mpr
                (Or.inr (List.mem_cons_of_mem _ hc))
      | committed c =>
        dsimp only at hres
        simp only [Prod.mk.injEq] at hres
        obtain ⟨-, hb, hc⟩ := hres
        subst hb
        subst hc
        rw [roundNumbers_append, roundNumbers_cons] at h2 h3
        have hp1 := List.perm_append_singleton st.round_number
          (roundNumbers acc ++ roundNumbers rest)
        rw [hst] at hp1
        have hperm := hp1.trans List.perm_middle.symm
        have hlist : roundNumbers (acc ++ rest ++ [st]) =
            roundNumbers acc ++ roundNumbers rest ++ [bg.round_number] := by
          simp [roundNumbers, hst]
        refine ⟨h1, ?_, fun m => ?_⟩
        · rw [hlist]
          exact hperm.nodup_iff.mpr h2
        · rw [hlist, hperm.mem_iff]
          exact h3 m
      | pollError e =>
        dsimp only at hres
        simp only [Prod.mk.injEq] at hres
        obtain ⟨ha, -, -⟩ := hres
        exact absurd ha.symm (herr e)

theorem push_inv (pr : PastRounds) (env : GrandpaEnv)
    (round : VotingRound) (hInv : pr.Inv)
    (hfresh : round.round_number ∉ pr.commit_senders) :
    (pr.push env round).Inv := by
  obtain ⟨h1, h2, h3⟩ := hInv
  have hnotin : round.round_number ∉ roundNumbers pr.past_rounds :=
    fun hmem => hfresh ((h3 _).mpr hmem)
  unfold PastRounds.push PastRounds.Inv
  dsimp only
  rw [if_neg hfresh]
  have hlist : roundNumbers (pr.past_rounds ++
      [{ inner := round, waker := none, finalized_number := 0,
         round_committer :=
           some (RoundCommitter.new env.round_commit_timer) }]) =
      roundNumbers pr.past_rounds ++ [round.round_number] := by
    simp [roundNumbers, BackgroundRound.round_number]
  refine ⟨List.nodup_cons.mpr ⟨hfresh, h1⟩, ?_, ?_⟩
  · rw [hlist]
    exact ((List.perm_append_singleton _ _).nodup_iff).mpr
      (List.nodup_cons.mpr ⟨hnotin, h2⟩)
  · intro n
    rw [hlist]
    simp only [List.mem_cons, List.mem_append, List.mem_singleton]
    rw [h3 n]
    tauto

theorem update_finalized_inv (pr : PastRounds) (f : Nat)
    (hInv : pr.Inv) : (pr.update_finalized f).Inv := by
  obtain ⟨h1, h2, h3⟩ := hInv
  have hlist : roundNumbers
      (pr.past_rounds.map (fun bg => bg.update_finalized f)) =
      roundNumbers pr.past_rounds := by
    rw [roundNumbers, roundNumbers, List.map_map]
    rfl
  refine ⟨h1, ?_, ?_⟩
  · show (roundNumbers (pr.update_finalized f).past_rounds).Nodup
    rw [PastRounds.update_finalized]
    dsimp only
    rw [hlist]
    exact h2
  · intro n
    rw [PastRounds.update_finalized]
    dsimp only
    rw [hlist]
    exact h3 n

theorem import_commit_inv (pr : PastRounds) (n : Nat) (c : CommitMsg)
    (hInv : pr.Inv) : (pr.import_commit n c).2.Inv := by
  obtain ⟨h1, h2, h3⟩ := hInv
  unfold PastRounds.import_commit
  by_cases hmem : n ∈ pr.commit_senders
  · rw [if_pos hmem]
    cases hs : sendToRound pr.past_rounds n c with
    | none => exact ⟨h1, h2, h3⟩
    | some rounds' =>
      dsimp only
      have hrn := sendToRound_roundNumbers pr.past_rounds n c rounds' hs
      refine ⟨h1, ?_, fun m => ?_⟩
      · show (roundNumbers rounds').Nodup
        rw [hrn]
        exact h2
      · show m ∈ pr.commit_senders ↔ m ∈ roundNumbers rounds'
        rw [hrn]
        exact h3 m
  · rw [if_neg hmem]
    exact ⟨h1, h2, h3⟩

theorem poll_next_inv (pr : PastRounds) (inputs : List PollInput)
    (hInv : pr.Inv)
    (herr : ∀ e, (pr.poll_next inputs).1 ≠ .errorItem e) :
    (pr.poll_next inputs).2.Inv := by
  obtain ⟨h1, h2, h3⟩ := hInv
  have hres : pollNextAux inputs [] pr.past_rounds pr.commit_senders =
      ((pr.poll_next inputs).1, (pr.poll_next inputs).2.past_rounds,
        (pr.poll_next inputs).2.commit_senders) := rfl
  exact pollNextAux_inv pr.past_rounds inputs [] pr.commit_senders _ _ _
    hres h1 (by simpa using h2) (fun n => by simpa using h3 n) herr

theorem poll_next_irrelevant_head (pr : PastRounds)
    (bg bg' : BackgroundRound) (rest : List BackgroundRound)
    (inp : PollInput) (more : List PollInput) (n : Nat)
    (hpast : pr.past_rounds = bg :: rest)
    (hbg : bg.poll inp = (.irrelevant n, bg')) :
    pr.poll_next (inp :: more) =
      PastRounds.poll_next more
        { past_rounds := rest,
          commit_senders := pr.commit_senders.filter (fun m => m ≠ n) } := by
  have key : pollNextAux (inp :: more) [] (bg :: rest) pr.commit_senders =
      pollNextAux more [] rest
        (pr.commit_senders.filter (fun m => m ≠ n)) := by
    simp only [pollNextAux, List.headD_cons, List.tail_cons, hbg]
  unfold PastRounds.poll_next
  rw [hpast, key]

theorem poll_next_committed_head (pr : PastRounds)
    (bg bg' : BackgroundRound) (rest : List BackgroundRound)
    (inp : PollInput) (more : List PollInput) (c : CommitMsg)
    (hpast : pr.past_rounds = bg :: rest)
    (hbg : bg.poll inp = (.committed c, bg')) :
    pr.poll_next (inp :: more) =
      (.item bg'.round_number c,
        { past_rounds := rest ++ [bg'],
          commit_senders := pr.commit_senders }) := by
  have key : pollNextAux (inp :: more) [] (bg :: rest) pr.commit_senders =
      (.item bg'.round_number c, [] ++ rest ++ [bg'],
        pr.commit_senders) := by
    simp only [pollNextAux, List.headD_cons, List.tail_cons, hbg]
  unfold PastRounds.poll_next
  rw [hpast, key]
  simp

/-- The environment handing out a fresh (still running) commit timer. -/
def envW : GrandpaEnv := { round_commit_timer := .running }

/-- C9 counterexample: after backgrounded round 7 fails with an inner
error, its future is gone from the active set while its sender entry
survives — the claimed iff between sender entries and live futures is
violated in this reachable state. -/
theorem c9_counterexample :
    (prOne.poll_next [inpFail]).2.commit_senders = [7] ∧
    (prOne.poll_next [inpFail]).2.past_rounds = [] ∧
    ¬ (prOne.poll_next [inpFail]).2.Inv := by
  refine ⟨rfl, rfl, fun hInv => ?_⟩
  have h7 := (hInv.2.2 7).mp (by
    rw [show (prOne.poll_next [inpFail]).2.commit_senders = [7] from rfl]
    simp)
  rw [show (prOne.poll_next [inpFail]).2.past_rounds = [] from rfl] at h7
  simp [roundNumbers] at h7

/-- C9 (amended): in every reachable state in which no background
round has failed — the empty multiplexer, and preservation under
`push` of a fresh round number, `update_finalized`, `import_commit`,
and any `poll_next` that surfaces no error item — a round number has a
sender entry iff its future is in the active set; an `Irrelevant(n)`
event removes future and sender entry together and is not surfaced to
the consumer, while a `Committed` event re-enqueues the round's future
and yields the `(round_number, commit)` pair. (A round that errors is
dropped from the active set while its sender entry remains, breaking
the iff — hence the error-free restriction.) -/
theorem c9_invariant_error_free :
    PastRounds.Inv PastRounds.new ∧
    (∀ (pr : PastRounds) (env : GrandpaEnv) (round : VotingRound),
      pr.Inv → round.round_number ∉ pr.commit_senders →
      (pr.push env round).Inv) ∧
    (∀ (pr : PastRounds) (f : Nat), pr.Inv →
      (pr.update_finalized f).Inv) ∧
    (∀ (pr : PastRounds) (n : Nat) (c : CommitMsg), pr.Inv →
      (pr.import_commit n c).2.Inv) ∧
    (∀ (pr : PastRounds) (inputs : List PollInput), pr.Inv →
      (∀ e, (pr.poll_next inputs).1 ≠ .errorItem e) →
      (pr.poll_next inputs).2.Inv) ∧
    (∀ (pr : PastRounds) (bg bg' : BackgroundRound)
      (rest : List BackgroundRound) (inp : PollInput)
      (more : List PollInput) (n : Nat),
      pr.past_rounds = bg :: rest →
      bg.poll inp = (.irrelevant n, bg') →
      pr.poll_next (inp :: more) =
        PastRounds.poll_next more
          { past_rounds := rest,
            commit_senders :=
              pr.commit_senders.filter (fun m => m ≠ n) }) ∧
    (∀ (pr : PastRounds) (bg bg' : BackgroundRound)
      (rest : List BackgroundRound) (inp : PollInput)
      (more : List PollInput) (c : CommitMsg),
      pr.past_rounds = bg :: rest →
      bg.poll inp = (.committed c, bg') →
      pr.poll_next (inp :: more) =
        (.item bg'.round_number c,
          { past_rounds := rest ++ [bg'],
            commit_senders := pr.commit_senders })) :=
  ⟨⟨List.nodup_nil, List.nodup_nil, fun _ => Iff.rfl⟩,
   fun pr env round hInv hfresh => push_inv pr env round hInv hfresh,
   fun pr f hInv => update_finalized_inv pr f hInv,
   fun pr n c hInv => import_commit_inv pr n c hInv,
   fun pr inputs hInv herr => poll_next_inv pr inputs hInv herr,
   fun pr bg bg' rest inp more n hpast hbg =>
     poll_next_irrelevant_head pr bg bg' rest inp more n hpast hbg,
   fun pr bg bg' rest inp more c hpast hbg =>
     poll_next_committed_head pr bg bg' rest inp more c hpast hbg⟩

/-- C9 witness: the invariant holds for the empty multiplexer and is
preserved when round 7 is pushed into it. -/
theorem c9_witness : PastRounds.Inv (PastRounds.new.push envW vrSeven) :=
  c9_invariant_error_free.2.1 PastRounds.new envW vrSeven
    c9_invariant_error_free.1 (by simp [PastRounds.new])
